import Mathlib

/-!
Verification of the contact-discovery core of the gmaps-lead-scraper
repository: the name validator, the text-pattern extractors, the email
synthesizer, the two page-scraping passes and the merge/deduplication
orchestrator.  Each TypeScript function is shallowly embedded as an
executable Lean definition; network adapters (Serper, Firecrawl, axios)
are passed in as oracle functions so that the control flow of the
embedded code is exactly the control flow of the source.
-/

namespace GmapsLeads

/-! ## Character and string helpers

JavaScript strings are modelled as Lean `String` (a list of unicode
characters).  `trim`, `split(/\s+/)`, `toLowerCase` and friends are
implemented over `List Char`. -/

/-- Accumulator loop for `words`: `cur` holds the reversed characters
of the word being read. -/
def wordsAux : List Char → List Char → List (List Char)
  | [], cur => if cur.isEmpty then [] else [cur.reverse]
  | c :: cs, cur =>
    if c.isWhitespace then
      if cur.isEmpty then wordsAux cs []
      else cur.reverse :: wordsAux cs []
    else wordsAux cs (c :: cur)

/-- Splits a character list into its maximal whitespace-free words.
Models JavaScript `s.trim().split(/\s+/)` (with the convention that an
all-whitespace input yields `[]` rather than `[""]`; every caller in
the source only compares the token count against a bound of at least
2, so the two conventions agree everywhere). -/
def words (l : List Char) : List (List Char) := wordsAux l []

/-- Space-joined concatenation of a word list; models
`array.join(' ')`. -/
def joinWords : List (List Char) → List Char
  | [] => []
  | [w] => w
  | w :: w₂ :: ws => w ++ ' ' :: joinWords (w₂ :: ws)

/-- Models JavaScript `s.toLowerCase()` on a character list (ASCII). -/
def lowerList (l : List Char) : List Char := l.map Char.toLower

/-- Models JavaScript `s.toLowerCase()` on a string (ASCII). -/
def lowerStr (s : String) : String := String.mk (lowerList s.data)

/-- Models JavaScript `s.trim()`: strip leading and trailing
whitespace. -/
def trimCh (l : List Char) : List Char :=
  ((l.dropWhile Char.isWhitespace).reverse.dropWhile Char.isWhitespace).reverse

/-- Models the regex test `/^[A-Z]/.test(w)`. -/
def startsUpper (w : List Char) : Bool :=
  match w with
  | [] => false
  | c :: _ => 'A' ≤ c && c ≤ 'Z'

/-- Models JavaScript `hay.includes(needle)` (substring containment). -/
def containsSub (hay needle : List Char) : Bool :=
  (List.range (hay.length + 1)).any (fun i => needle.isPrefixOf (hay.drop i))

/-! ## Data model -/

/-- Origin of a candidate contact.  The spec calls `team_page` the
`page` source and `google_search` the `search` source. -/
inductive Source where
  | team_page
  | google_search
deriving DecidableEq, Repr

/-- The `Contact` interface of `src/lib/contactDiscovery.ts` (the
`GoogleSearchContact` interface of `googleSearch.ts` is the same shape
with `source` fixed to `google_search`). -/
structure Contact where
  fullName : String
  firstName : String
  lastName : String
  title : Option String := none
  source : Option Source := none
deriving DecidableEq, Repr

/-- The `ScrapedContact` interface of the Firecrawl scraper. -/
structure ScrapedContact where
  fullName : String
  title : String
deriving DecidableEq, Repr

/-- Case-insensitive deduplication key used throughout the source:
`contact.fullName.toLowerCase()`. -/
def keyName (c : Contact) : String := lowerStr c.fullName

/-! ## Name validator (`isValidName`, googleSearch.ts)

The name-plausibility set `validFirstNames` is loaded from a static
JSON file that is not part of the embedded sources; it is passed in as
a membership oracle `ns : String → Bool`. -/

/-- Embeds `isValidName` of googleSearch.ts: word count 2–4, first word
in the first-name set, each word starting `[A-Z]`, surname length
at least 2 (checked in this short-circuit order, as in the code). -/
def isValidName (ns : String → Bool) (text : String) : Bool :=
  if (words text.data).length < 2 ∨ (words text.data).length > 4 then false
  else if ns (String.mk ((words text.data).headD [])) = false then false
  else if (words text.data).all startsUpper = false then false
  else if ((words text.data).getLastD []).length < 2 then false
  else true

/-- The four conditions of the spec's §4.1 policy, stated directly from
the spec's words (used to compare with the embedded `isValidName`). -/
def nameSpecConds (ns : String → Bool) (text : String) : Prop :=
  let ws := words text.data
  (2 ≤ ws.length ∧ ws.length ≤ 4) ∧
    ns (String.mk (ws.headD [])) = true ∧
    (∀ w ∈ ws, startsUpper w = true) ∧
    2 ≤ (ws.getLastD []).length

/-! ## Name parser (`parseFullName`, googleSearch.ts) -/

/-- The stop-word list of `parseFullName`. -/
def stopWords : List (List Char) :=
  ["and".data, "the".data, "of".data, "at".data, "for".data, "by".data]

/-- Result record of `parseFullName`. -/
structure ParsedName where
  fullName : String
  firstName : String
  lastName : String
deriving DecidableEq, Repr

/-- Embeds `parseFullName` of googleSearch.ts: tokenize, drop stop
words, re-join with single spaces, validate with `isValidName`, and
return the reconstructed name with its first and last token. -/
def parseFullName (ns : String → Bool) (fullName : String) :
    Option ParsedName :=
  let parts := words fullName.data
  if parts.length < 2 then none
  else
    let filteredParts :=
      parts.filter (fun part => decide (lowerList part ∉ stopWords))
    if filteredParts.length < 2 then none
    else
      let reconstructedName := String.mk (joinWords filteredParts)
      if isValidName ns reconstructedName = false then none
      else
        some { fullName := reconstructedName
               firstName := String.mk (filteredParts.headD [])
               lastName := String.mk (filteredParts.getLastD []) }

/-! ## Email synthesizer (`generateEmails`, contactDiscovery.ts) -/

/-- Strips `^https?:\/\/` then `^www\.` then `\/.*$` then trims; embeds
the domain normalization of `generateEmails` / `extractDomain`. -/
def cleanDomainList (l : List Char) : List Char :=
  let l₁ :=
    if "https://".data.isPrefixOf l then l.drop 8
    else if "http://".data.isPrefixOf l then l.drop 7
    else l
  let l₂ := if "www.".data.isPrefixOf l₁ then l₁.drop 4 else l₁
  trimCh (l₂.takeWhile (fun c => c ≠ '/'))

/-- String wrapper for `cleanDomainList`. -/
def cleanDomain (domain : String) : String :=
  String.mk (cleanDomainList domain.data)

/-- Embeds `extractDomain` of contactDiscovery.ts (same normalization
chain as in `generateEmails`). -/
def extractDomain (websiteUrl : String) : String := cleanDomain websiteUrl

/-- First-write-wins deduplication keyed by the string itself; models
`[...new Set(emails)]` (JavaScript `Set` iterates in insertion
order). -/
def dedupStrings (seen : List String) : List String → List String
  | [] => []
  | x :: xs =>
    if x ∈ seen then dedupStrings seen xs
    else x :: dedupStrings (x :: seen) xs

/-- The eight email forms of `generateEmails`, in source order, before
duplicate collapsing. -/
def emailTemplate (firstName lastName domain : String) : List String :=
  let first := lowerStr firstName
  let last := lowerStr lastName
  let firstInitial := String.mk (first.data.take 1)
  let lastInitial := String.mk (last.data.take 1)
  let cd := cleanDomain domain
  [ first ++ "@" ++ cd
  , last ++ "@" ++ cd
  , first ++ "." ++ last ++ "@" ++ cd
  , first ++ last ++ "@" ++ cd
  , firstInitial ++ last ++ "@" ++ cd
  , first ++ lastInitial ++ "@" ++ cd
  , firstInitial ++ "." ++ last ++ "@" ++ cd
  , first ++ "_" ++ last ++ "@" ++ cd ]

/-- Embeds `generateEmails` of contactDiscovery.ts: lower-case the two
name parts, normalize the domain, emit the eight fixed forms, collapse
duplicates keeping the first occurrence. -/
def generateEmails (firstName lastName domain : String) : List String :=
  dedupStrings [] (emailTemplate firstName lastName domain)

/-! ## Text pattern extractor (`extractContactsFromText`, googleSearch.ts)

The four regex patterns are applied by the JavaScript engine to the
raw snippet text; the extractor is embedded as a function of the four
per-pattern capture lists (the strings the engine captured), and the
processing of each capture — trimming, the `and`-split of pattern 2,
the gazetteer check of pattern 4, `parseFullName`, and the final
contact construction — follows the code. -/

/-- The `titles` gazetteer of `extractContactsFromText`. -/
def titlesGazetteer : List String :=
  [ "CEO", "CTO", "CFO", "COO", "CMO", "CIO", "CPO"
  , "Chief Executive Officer", "Chief Technology Officer"
  , "Chief Financial Officer"
  , "Founder", "Co-Founder", "Co-founder", "President", "Vice President"
  , "VP"
  , "Director", "Manager", "Marketing Manager", "Operations Manager"
  , "Head of", "Owner", "Principal", "Partner" ]

/-- Models `namesText.split(/\s+and\s+/i)` up to inner whitespace: the
word list is cut at each stand-alone (case-insensitive) `and`, and each
group is re-joined with single spaces. -/
def splitAndNames (namesText : String) : List String :=
  let groups := (words namesText.data).splitOnP
    (fun w => lowerList w = "and".data)
  groups.map (fun g => String.mk (joinWords g))

/-- Contact constructor shared by the four patterns: the parsed name
plus the pattern's title, tagged `source: 'google_search'`. -/
def mkGoogleContact (p : ParsedName) (title : String) : Contact :=
  { fullName := p.fullName
    firstName := p.firstName
    lastName := p.lastName
    title := some (String.mk (trimCh title.data))
    source := some Source.google_search }

/-- Embeds `extractContactsFromText` of googleSearch.ts as a function
of the capture lists: `m1` the (name, title) captures of pattern 1
`"Name, Title"`, `m2` the name-list captures of pattern 2
`"founded by Name [and Name]"`, `m3` the (title, name) captures of
pattern 3 `"Title - Name"` / `"Title: Name"`, and `m4` the
(name, potential-title) captures of pattern 4 `"Name is the Title"`
(kept only when the potential title contains a gazetteer entry,
case-insensitively). -/
def extractContactsFromText (ns : String → Bool)
    (m1 : List (String × String)) (m2 : List String)
    (m3 : List (String × String)) (m4 : List (String × String)) :
    List Contact :=
  let p1 := m1.filterMap (fun m =>
    (parseFullName ns (String.mk (trimCh m.1.data))).map
      (fun p => mkGoogleContact p m.2))
  let p2 := m2.flatMap (fun namesText =>
    (splitAndNames namesText).filterMap (fun name =>
      (parseFullName ns (String.mk (trimCh name.data))).map
        (fun p => mkGoogleContact p "Founder")))
  let p3 := m3.filterMap (fun m =>
    (parseFullName ns (String.mk (trimCh m.2.data))).map
      (fun p => mkGoogleContact p (String.mk (trimCh m.1.data))))
  let p4 := m4.filterMap (fun m =>
    if titlesGazetteer.any
        (fun t => containsSub (lowerList m.2.data) (lowerList t.data)) then
      (parseFullName ns (String.mk (trimCh m.1.data))).map
        (fun p => mkGoogleContact p (String.mk (trimCh m.2.data)))
    else none)
  p1 ++ p2 ++ p3 ++ p4

/-! ## Name-portion regex shape (for both extractor variants)

The name-capturing sub-expressions are embedded as total matchers over
a candidate captured string, with the token list obtained by cutting at
single spaces (exactly the separator the sub-expressions use). -/

/-- Token list of a name capture: cut at every single space, as the
sub-expressions separate tokens with one literal space. -/
def nameToks (s : String) : List (List Char) := s.data.splitOn ' '

/-- ASCII letter test; under the `i` regex flag both `[A-Z]` and
`[a-z]` match any ASCII letter. -/
def isAsciiLetter (c : Char) : Bool :=
  ('A' ≤ c && c ≤ 'Z') || ('a' ≤ c && c ≤ 'z')

/-- One name-like token under the `i` flag: `[A-Z][a-z]+` becomes
"two or more ASCII letters". -/
def nameTokCI (w : List Char) : Bool :=
  match w with
  | [] => false
  | c :: rest => isAsciiLetter c && !rest.isEmpty && rest.all isAsciiLetter

/-- One name-like token, case-sensitive: `[A-Z][a-z]+`. -/
def nameTokCS (w : List Char) : Bool :=
  match w with
  | [] => false
  | c :: rest =>
    ('A' ≤ c && c ≤ 'Z') && !rest.isEmpty &&
      rest.all (fun d => 'a' ≤ d && d ≤ 'z')

/-- Embeds the name-capturing portion
`([A-Z][a-z]+(?: [A-Z][a-z]+)+)` of search-snippet patterns 1–4 (all
compiled with the `gi` flags): two or more tokens, no upper bound. -/
def matchesSearchName (s : String) : Bool :=
  let ps := nameToks s
  2 ≤ ps.length && ps.all nameTokCI

/-- Embeds the name-capturing portion
`([A-Z][a-z]+(?: [A-Z][a-z]+){1,3})` of markdown patterns 1–3
(case-sensitive): two to four tokens. -/
def matchesMarkdownName (s : String) : Bool :=
  let ps := nameToks s
  2 ≤ ps.length && ps.length ≤ 4 && ps.all nameTokCS

/-- Embeds the name-capturing portion of markdown patterns 4–5 (the
`founded by` and `is the` patterns, compiled with `gi`): two to four
tokens of the case-insensitive token class. -/
def matchesMarkdownNameCI (s : String) : Bool :=
  let ps := nameToks s
  2 ≤ ps.length && ps.length ≤ 4 && ps.all nameTokCI

/-! ## Search pass (`searchForDecisionMakers`, googleSearch.ts) -/

/-- First-write-wins deduplication of contacts by lower-cased
`fullName`; embeds `deduplicateContacts` of googleSearch.ts. -/
def dedupContactsAux (seen : List String) : List Contact → List Contact
  | [] => []
  | c :: rest =>
    if keyName c ∈ seen then dedupContactsAux seen rest
    else c :: dedupContactsAux (keyName c :: seen) rest

/-- Embeds `deduplicateContacts` of googleSearch.ts (no truncation). -/
def deduplicateContacts (contacts : List Contact) : List Contact :=
  dedupContactsAux [] contacts

/-- Embeds the collection tail of `searchForDecisionMakers`: each of
the three queries either fails (caught, contributing nothing) or
contributes the contacts extracted from its results; the accumulated
list is deduplicated and truncated to 5.  The network call and
extraction of each query are summed up by its `Except` outcome. -/
def searchForDecisionMakers
    (perQuery : List (Except String (List Contact))) : List Contact :=
  let contacts := perQuery.foldl
    (fun acc r => acc ++ (match r with | .ok l => l | .error _ => [])) []
  (deduplicateContacts contacts).take 5

/-! ## Legacy page pass (`scrapeTeamPage`, contactDiscovery.ts) -/

/-- The eight candidate path suffixes of `scrapeTeamPage`. -/
def teamPaths : List String :=
  ["/team", "/about", "/about-us", "/our-team", "/leadership",
   "/founders", "/people", "/contact"]

/-- URL normalization of `scrapeTeamPage`: trim, default to `https://`
when the URL does not start with `http`, drop trailing slashes. -/
def normalizeBase (websiteUrl : String) : String :=
  let t := trimCh websiteUrl.data
  let t := if "http".data.isPrefixOf t then t else "https://".data ++ t
  String.mk ((t.reverse.dropWhile (fun c => c = '/')).reverse)

/-- The path loop of `scrapeTeamPage`: `fetch` gives the page HTML for
a URL (`none` on any axios error, which the code catches and skips),
`extract` stands for `extractContacts` on that HTML.  Returns the
accumulated contacts and the list of attempted paths; the loop breaks
only once at least 5 contacts have accumulated. -/
def stpLoop (extract : String → List Contact) (fetch : String → Option String)
    (base : String) (acc : List Contact) :
    List String → List Contact × List String
  | [] => (acc, [])
  | p :: rest =>
    match fetch (base ++ p) with
    | none =>
      let r := stpLoop extract fetch base acc rest
      (r.1, p :: r.2)
    | some html =>
      let found := extract html
      if found.isEmpty then
        let r := stpLoop extract fetch base acc rest
        (r.1, p :: r.2)
      else
        let acc' := acc ++ found
        if 5 ≤ acc'.length then (acc', [p])
        else
          let r := stpLoop extract fetch base acc' rest
          (r.1, p :: r.2)

/-- Embeds `scrapeTeamPage` of contactDiscovery.ts: try the eight
paths, deduplicate by lower-cased name, tag every contact
`source: 'team_page'`, truncate to 10.  Also returns the attempted
path list for the early-stop analysis. -/
def scrapeTeamPage (extract : String → List Contact)
    (fetch : String → Option String) (websiteUrl : String) :
    List Contact × List String :=
  let base := normalizeBase websiteUrl
  let r := stpLoop extract fetch base [] teamPaths
  (((deduplicateContacts r.1).map
      (fun c => { c with source := some Source.team_page })).take 10,
    r.2)

/-! ## Firecrawl page pass (`scrapeTeamPagesWithFirecrawl`) -/

/-- Outcome of one Firecrawl scrape call for a URL, covering every
branch the source distinguishes: content returned, no markdown
(`!result.markdown`), a thrown error whose message contains
`Rate limit exceeded`, a thrown error whose message contains
`timed out`, and any other thrown error. -/
inductive FetchOutcome where
  | content (markdown : String)
  | noContent
  | rateLimited
  | timedOut
  | failedOther
deriving DecidableEq, Repr

/-- Outcome of the `/v0/account` balance probe: a network error (the
`catch` branch), a non-2xx response (`!response.ok`), or a parsed
account whose `credits` field may be absent. -/
inductive BalanceResult where
  | probeFail
  | httpNotOk (status : Nat)
  | ok (credits : Option Nat)
deriving DecidableEq, Repr

/-- The `FirecrawlResult` interface of the Firecrawl scraper. -/
structure FirecrawlResult where
  contacts : List ScrapedContact
  creditsExhausted : Bool
deriving DecidableEq, Repr

/-- The three candidate path suffixes of
`scrapeTeamPagesWithFirecrawl`. -/
def TEAM_PATHS : List String := ["/about", "/team", "/our-team"]

/-- Embeds `deduplicateContacts` of the Firecrawl scraper:
first-write-wins by lower-cased name, then truncate to 10. -/
def deduplicateContactsFc (contacts : List ScrapedContact) :
    List ScrapedContact :=
  let rec go (seen : List String) : List ScrapedContact → List ScrapedContact
    | [] => []
    | c :: rest =>
      if lowerStr c.fullName ∈ seen then go seen rest
      else c :: go (lowerStr c.fullName :: seen) rest
  (go [] contacts).take 10

/-- The path loop of `scrapeTeamPagesWithFirecrawl`.  A productive
path (content whose extraction is non-empty) stops the loop at once; a
rate-limit error abandons the remaining paths; no-content, timeout and
other errors skip to the next path.  Since every non-final iteration
contributes zero contacts, the accumulator is always empty when the
loop breaks, so it is elided.  Returns the collected contacts and the
attempted paths. -/
def fcLoop (extract : String → List ScrapedContact)
    (f : String → FetchOutcome) :
    List String → List ScrapedContact × List String
  | [] => ([], [])
  | p :: rest =>
    match f p with
    | .content markdown =>
      let pageContacts := extract markdown
      if pageContacts.isEmpty then
        let r := fcLoop extract f rest
        (r.1, p :: r.2)
      else (pageContacts, [p])
    | .noContent =>
      let r := fcLoop extract f rest
      (r.1, p :: r.2)
    | .rateLimited => ([], [p])
    | .timedOut =>
      let r := fcLoop extract f rest
      (r.1, p :: r.2)
    | .failedOther =>
      let r := fcLoop extract f rest
      (r.1, p :: r.2)

/-- Base-URL normalization of the Firecrawl scraper:
`websiteUrl.replace(/\/$/, '')` drops one trailing slash. -/
def fcBase (websiteUrl : String) : String :=
  match websiteUrl.data.reverse with
  | '/' :: rest => String.mk rest.reverse
  | _ => websiteUrl

/-- Embeds `scrapeTeamPagesWithFirecrawl` (part_003): when the balance
probe parses and reports `credits === 0`, the whole pass is skipped
with the exhaustion flag set; a failed probe (network error or non-2xx)
is non-blocking and the path loop runs as usual; afterwards the
collected contacts are deduplicated and capped at 10.  `extract`
stands for `extractContactsFromMarkdown`.  Also returns the attempted
path list. -/
def scrapeTeamPagesWithFirecrawl (extract : String → List ScrapedContact)
    (balance : BalanceResult) (websiteUrl : String)
    (fetch : String → FetchOutcome) : FirecrawlResult × List String :=
  match balance with
  | .ok (some 0) => ({ contacts := [], creditsExhausted := true }, [])
  | _ =>
    let r := fcLoop extract (fun p => fetch (fcBase websiteUrl ++ p)) TEAM_PATHS
    ({ contacts := deduplicateContactsFc r.1, creditsExhausted := false }, r.2)

/-! ## Legacy orchestrator (`findAllContacts`, contactDiscovery.ts) -/

/-- One deduplication pass of `findAllContacts`: walk `allContacts`
once, keeping each contact whose `source` matches `src` and whose
lower-cased name is unseen, threading the seen-name set. -/
def dedupPass (src : Source) (seen : List String) :
    List Contact → List String × List Contact
  | [] => (seen, [])
  | c :: rest =>
    let nameLower := keyName c
    if c.source = some src ∧ nameLower ∉ seen then
      let r := dedupPass src (nameLower :: seen) rest
      (r.1, c :: r.2)
    else dedupPass src seen rest

/-- The merge-and-deduplicate step of `findAllContacts` (lines
297–318): first every `team_page` contact unseen so far, then every
`google_search` contact whose name was not already taken. -/
def mergeDedup (allContacts : List Contact) : List Contact :=
  let r₁ := dedupPass Source.team_page [] allContacts
  let r₂ := dedupPass Source.google_search r₁.1 allContacts
  r₁.2 ++ r₂.2

/-- Embeds `findAllContacts` of contactDiscovery.ts.  The two passes
are summed up by their outcomes: the page pass runs only when a
website is known and its thrown errors are caught (contributing
nothing), likewise the search pass; the combined list is merged,
deduplicated with team-page priority and truncated to 15. -/
def findAllContacts (websiteUrl : Option String)
    (pageRes searchRes : Except String (List Contact)) : List Contact :=
  let teamPageContacts :=
    match websiteUrl, pageRes with
    | some _, .ok l => l
    | _, _ => []
  let googleContacts :=
    match searchRes with
    | .ok l => l
    | .error _ => []
  (mergeDedup (teamPageContacts ++ googleContacts)).take 15

/-! ## Firecrawl-era orchestrator (modelled) -/

/-- The Orchestrator's output for one lead (spec §3, "Discovery
Result"). -/
structure DiscoveryResult where
  contacts : List Contact
  pageSourceExhausted : Bool
deriving DecidableEq, Repr

/-- Candidate-contact form of a scraped page contact: first and last
whitespace token of the reconstructed name (spec §3), tagged with the
page source. -/
def scToContact (sc : ScrapedContact) : Contact :=
  let toks := words sc.fullName.data
  { fullName := sc.fullName
    firstName := String.mk (toks.headD [])
    lastName := String.mk (toks.getLastD [])
    title := some sc.title
    source := some Source.team_page }

/-- Modelled from the spec: the Firecrawl-era orchestrator
`findAllContacts(lead)` returning `{ contacts, firecrawlCreditsExhausted }`
is not among the embedded sources (only its caller, the market
find-contacts route, is).  Per spec §4.3 it always runs the search
pass, runs the page pass only when a website is known (propagating the
Firecrawl pass's exhaustion flag), inserts candidates in source-priority
order with `search` before `page`, deduplicates first-write-wins by
case-insensitive name, and caps the list at 15. -/
def discoverContacts (searchContacts : List Contact)
    (website : Option String) (extract : String → List ScrapedContact)
    (balance : BalanceResult) (fetch : String → FetchOutcome) :
    DiscoveryResult × List String :=
  match website with
  | none => ({ contacts := (deduplicateContacts searchContacts).take 15
               pageSourceExhausted := false }, [])
  | some w =>
    let r := scrapeTeamPagesWithFirecrawl extract balance w fetch
    let pageContacts := r.1.contacts.map scToContact
    ({ contacts :=
        (deduplicateContacts (searchContacts ++ pageContacts)).take 15
       pageSourceExhausted := r.1.creditsExhausted }, r.2)

/-! ## Concrete fixtures used by counterexamples and witnesses -/

/-- The "Jane Doe" candidate as produced by the page pass. -/
def jdPage : Contact :=
  { fullName := "Jane Doe", firstName := "Jane", lastName := "Doe"
    title := some "Owner", source := some Source.team_page }

/-- The "Jane Doe" candidate as produced by the search pass, with a
different title. -/
def jdSearch : Contact :=
  { fullName := "Jane Doe", firstName := "Jane", lastName := "Doe"
    title := some "CEO", source := some Source.google_search }

/-- Claim C4 witness data: ten distinct team-page candidates. -/
def c4Team : List Contact :=
  ["Pa Qa", "Pb Qb", "Pc Qc", "Pd Qd", "Pe Qe",
   "Pf Qf", "Pg Qg", "Ph Qh", "Pi Qi", "Pj Qj"].map
    (fun n => { fullName := n, firstName := n, lastName := n
                source := some Source.team_page })

/-- Claim C4 witness data: ten distinct search candidates. -/
def c4Google : List Contact :=
  ["Sa Ta", "Sb Tb", "Sc Tc", "Sd Td", "Se Te",
   "Sf Tf", "Sg Tg", "Sh Th", "Si Ti", "Sj Tj"].map
    (fun n => { fullName := n, firstName := n, lastName := n
                source := some Source.google_search })

/-- Claim C6 witness data: a page contact found on the first path. -/
def c6Contact : Contact :=
  { fullName := "Al Bo", firstName := "Al", lastName := "Bo"
    title := some "CEO" }

/-- Claim C6 witness data: extraction returning one contact on the
first page only. -/
def exC6 : String → List Contact :=
  fun h => if h = "PAGE1" then [c6Contact] else []

/-- Claim C6 witness data: only the first candidate path resolves. -/
def fC6 : String → Option String :=
  fun u => if u = "https://x.com/team" then some "PAGE1" else none

/-- Claim C9 witness data: the name set accepting exactly "John". -/
def nsC9 : String → Bool := fun s => s == "John"

/-- Claim C9 witness data: the contact extracted from the capture
("John Smith", "CEO") of pattern 1. -/
def c9Contact : Contact :=
  { fullName := "John Smith", firstName := "John", lastName := "Smith"
    title := some "CEO", source := some Source.google_search }

/-! ## Helper lemmas -/

theorem dedupStrings_sublist (l : List String) (seen : List String) :
    List.Sublist (dedupStrings seen l) l := by
  induction l generalizing seen with
  | nil => simp [dedupStrings]
  | cons x xs ih =>
    simp only [dedupStrings]
    split
    · exact (ih seen).cons x
    · exact (ih (x :: seen)).cons₂ x

theorem dedupStrings_nodup_fresh (l : List String) (seen : List String) :
    (dedupStrings seen l).Nodup ∧ ∀ x ∈ dedupStrings seen l, x ∉ seen := by
  induction l generalizing seen with
  | nil => simp [dedupStrings]
  | cons x xs ih =>
    simp only [dedupStrings]
    split
    · exact ih seen
    · rename_i hx
      obtain ⟨hnd, hfresh⟩ := ih (x :: seen)
      refine ⟨List.nodup_cons.mpr ⟨fun hmem => ?_, hnd⟩, ?_⟩
      · exact (hfresh x hmem) (List.mem_cons_self x seen)
      · intro y hy
        rcases List.mem_cons.mp hy with rfl | hy'
        · exact hx
        · exact fun hs => (hfresh y hy') (List.mem_cons_of_mem _ hs)

theorem wordsAux_nonws (w : List Char)
    (hnw : ∀ c ∈ w, c.isWhitespace = false) (l cur : List Char) :
    wordsAux (w ++ l) cur = wordsAux l (w.reverse ++ cur) := by
  induction w generalizing cur with
  | nil => simp
  | cons c w' ih =>
    have hc : c.isWhitespace = false := hnw c (List.mem_cons_self _ _)
    simp only [List.cons_append, wordsAux, hc, Bool.false_eq_true,
      if_false, List.reverse_cons]
    rw [List.append_eq, ih (fun d hd => hnw d (List.mem_cons_of_mem _ hd)) (c :: cur)]
    simp

theorem words_single (w : List Char) (hw : w ≠ [])
    (hnw : ∀ c ∈ w, c.isWhitespace = false) : words w = [w] := by
  have := wordsAux_nonws w hnw [] []
  rw [List.append_nil] at this
  simp only [words, this, wordsAux, List.append_nil]
  rw [if_neg (by simp [hw]), List.reverse_reverse]

theorem words_word_append (w : List Char) (hw : w ≠ [])
    (hnw : ∀ c ∈ w, c.isWhitespace = false) (l : List Char) :
    words (w ++ ' ' :: l) = w :: words l := by
  simp only [words]
  rw [wordsAux_nonws w hnw]
  simp only [wordsAux, List.append_nil]
  rw [if_pos (by decide), if_neg (by simp [hw]), List.reverse_reverse]

theorem words_joinWords (ws : List (List Char))
    (h : ∀ w ∈ ws, w ≠ [] ∧ ∀ c ∈ w, c.isWhitespace = false) :
    words (joinWords ws) = ws := by
  induction ws with
  | nil => rfl
  | cons w rest ih =>
    obtain ⟨hw, hnw⟩ := h w (List.mem_cons_self _ _)
    cases rest with
    | nil => simpa [joinWords] using words_single w hw hnw
    | cons w₂ rest' =>
      simp only [joinWords]
      rw [words_word_append w hw hnw]
      rw [ih (fun v hv => h v (List.mem_cons_of_mem _ hv))]

theorem wordsAux_sound (l : List Char) :
    ∀ cur, (∀ c ∈ cur, c.isWhitespace = false) →
      ∀ w ∈ wordsAux l cur, w ≠ [] ∧ ∀ c ∈ w, c.isWhitespace = false := by
  induction l with
  | nil =>
    intro cur hcur w hw
    simp only [wordsAux] at hw
    split at hw
    · simp at hw
    · rename_i hne
      simp only [List.mem_singleton] at hw
      subst hw
      refine ⟨by simpa using fun h => hne (by simp [h]), ?_⟩
      intro c hc
      exact hcur c (List.mem_reverse.mp hc)
  | cons c cs ih =>
    intro cur hcur w hw
    simp only [wordsAux] at hw
    split at hw
    · split at hw
      · exact ih [] (by simp) w hw
      · rename_i hne
        rcases List.mem_cons.mp hw with rfl | hw'
        · refine ⟨by simpa using fun h => hne (by simp [h]), ?_⟩
          intro d hd
          exact hcur d (List.mem_reverse.mp hd)
        · exact ih [] (by simp) w hw'
    · rename_i hcws
      refine ih (c :: cur) ?_ w hw
      intro d hd
      rcases List.mem_cons.mp hd with rfl | hd'
      · exact eq_false_of_ne_true hcws
      · exact hcur d hd'

theorem words_sound (l : List Char) :
    ∀ w ∈ words l, w ≠ [] ∧ ∀ c ∈ w, c.isWhitespace = false :=
  wordsAux_sound l [] (by simp)

theorem dedupPass_sublist (src : Source) (l : List Contact) :
    ∀ seen, List.Sublist (dedupPass src seen l).2
      (l.filter (fun c => decide (c.source = some src))) := by
  induction l with
  | nil => intro seen; simp [dedupPass]
  | cons c rest ih =>
    intro seen
    simp only [dedupPass]
    split
    · rename_i hcond
      rw [List.filter_cons_of_pos (by simp [hcond.1])]
      exact (ih (keyName c :: seen)).cons₂ c
    · by_cases hsrc : c.source = some src
      · rw [List.filter_cons_of_pos (by simp [hsrc])]
        exact (ih seen).cons c
      · rw [List.filter_cons_of_neg (by simp [hsrc])]
        exact ih seen

theorem dedupPass_source (src : Source) (l : List Contact) :
    ∀ seen, ∀ c ∈ (dedupPass src seen l).2, c.source = some src := by
  induction l with
  | nil => intro seen c hc; simp [dedupPass] at hc
  | cons c rest ih =>
    intro seen c' hc'
    simp only [dedupPass] at hc'
    split at hc'
    · rename_i hcond
      rcases List.mem_cons.mp hc' with rfl | h
      · exact hcond.1
      · exact ih _ c' h
    · exact ih _ c' hc'

theorem dedupPass_fresh_nodup (src : Source) (l : List Contact) :
    ∀ seen, (∀ c ∈ (dedupPass src seen l).2, keyName c ∉ seen) ∧
      (((dedupPass src seen l).2.map keyName).Nodup) := by
  induction l with
  | nil => intro seen; simp [dedupPass]
  | cons c rest ih =>
    intro seen
    simp only [dedupPass]
    split
    · rename_i hcond
      obtain ⟨hfresh, hnd⟩ := ih (keyName c :: seen)
      constructor
      · intro c' hc'
        rcases List.mem_cons.mp hc' with rfl | h
        · exact hcond.2
        · exact fun hs =>
            (hfresh c' h) (List.mem_cons_of_mem _ hs)
      · simp only [List.map_cons, List.nodup_cons]
        refine ⟨fun hmem => ?_, hnd⟩
        obtain ⟨c', hc', hkey⟩ := List.mem_map.mp hmem
        exact (hfresh c' hc') (hkey ▸ List.mem_cons_self _ _)
    · exact ih seen

theorem dedupPass_seen_iff (src : Source) (l : List Contact) :
    ∀ seen n, n ∈ (dedupPass src seen l).1 ↔
      n ∈ seen ∨ n ∈ (dedupPass src seen l).2.map keyName := by
  induction l with
  | nil => intro seen n; simp [dedupPass]
  | cons c rest ih =>
    intro seen n
    simp only [dedupPass]
    split
    · rw [ih (keyName c :: seen) n]
      simp only [List.mem_cons, List.map_cons]
      tauto
    · rw [ih seen n]

theorem dedupPass_coverage (src : Source) (l : List Contact) :
    ∀ seen c, c ∈ l → c.source = some src →
      keyName c ∈ (dedupPass src seen l).1 := by
  induction l with
  | nil => intro seen c hc; simp at hc
  | cons d rest ih =>
    intro seen c hc hsrc
    simp only [dedupPass]
    rcases List.mem_cons.mp hc with rfl | hmem
    · by_cases hseen : keyName c ∈ seen
      · split
        · exact (dedupPass_seen_iff src rest _ _).mpr
            (Or.inl (List.mem_cons_of_mem _ hseen))
        · exact (dedupPass_seen_iff src rest _ _).mpr (Or.inl hseen)
      · rw [if_pos ⟨hsrc, hseen⟩]
        exact (dedupPass_seen_iff src rest _ _).mpr
          (Or.inl (List.mem_cons_self _ _))
    · split
      · exact ih _ c hmem hsrc
      · exact ih _ c hmem hsrc

theorem dedupPass_filter_eq (src : Source) (l : List Contact)
    (hnd : (l.map keyName).Nodup) :
    ∀ seen, (∀ c ∈ l, c.source = some src → keyName c ∉ seen) →
      (dedupPass src seen l).2 =
        l.filter (fun c => decide (c.source = some src)) := by
  induction l with
  | nil => intro seen _; simp [dedupPass]
  | cons c rest ih =>
    intro seen hseen
    simp only [List.map_cons, List.nodup_cons] at hnd
    obtain ⟨hknotin, hnd'⟩ := hnd
    simp only [dedupPass]
    by_cases hsrc : c.source = some src
    · rw [if_pos ⟨hsrc, hseen c (List.mem_cons_self _ _) hsrc⟩,
        List.filter_cons_of_pos (by simp [hsrc])]
      rw [ih hnd' (keyName c :: seen) ?_]
      intro c' hc' hsrc'
      simp only [List.mem_cons, not_or]
      refine ⟨fun heq => hknotin ?_, hseen c' (List.mem_cons_of_mem _ hc') hsrc'⟩
      · exact heq ▸ List.mem_map_of_mem keyName hc'
    · rw [if_neg (fun hcond => hsrc hcond.1),
        List.filter_cons_of_neg (by simp [hsrc])]
      exact ih hnd' seen (fun c' hc' h => hseen c' (List.mem_cons_of_mem _ hc') h)

/-- Length of the two source-filtered sublists when every contact is
tagged with one of the two sources. -/
theorem filter_two_sources_length (l : List Contact)
    (h : ∀ c ∈ l, c.source = some Source.team_page ∨
      c.source = some Source.google_search) :
    (l.filter (fun c => decide (c.source = some Source.team_page))).length +
      (l.filter (fun c =>
        decide (c.source = some Source.google_search))).length = l.length := by
  induction l with
  | nil => simp
  | cons c rest ih =>
    have hrest := ih (fun c' hc' => h c' (List.mem_cons_of_mem _ hc'))
    rcases h c (List.mem_cons_self _ _) with hc | hc <;>
      simp [List.filter_cons, hc] <;> omega

/-- The merged list's keys are exactly reachable facts about the two
passes: no duplicate keys. -/
theorem mergeDedup_nodup (all : List Contact) :
    ((mergeDedup all).map keyName).Nodup := by
  simp only [mergeDedup, List.map_append]
  refine List.Nodup.append (dedupPass_fresh_nodup _ all _).2
    (dedupPass_fresh_nodup _ all _).2 ?_
  intro n hn₁ hn₂
  obtain ⟨c₂, hc₂, hkey₂⟩ := List.mem_map.mp hn₂
  have hfresh := (dedupPass_fresh_nodup Source.google_search all
    (dedupPass Source.team_page [] all).1).1 c₂ hc₂
  apply hfresh
  rw [hkey₂]
  exact (dedupPass_seen_iff Source.team_page all [] n).mpr (Or.inr hn₁)

/-- The merged list preserves the source-priority insertion order:
it is a subsequence of the team-page-filtered contacts followed by the
google-filtered contacts. -/
theorem mergeDedup_sublist (all : List Contact) :
    List.Sublist (mergeDedup all)
      ((all.filter (fun c => decide (c.source = some Source.team_page))) ++
        (all.filter (fun c =>
          decide (c.source = some Source.google_search)))) := by
  exact List.Sublist.append (dedupPass_sublist _ all _)
    (dedupPass_sublist _ all _)

/-- With pairwise-distinct keys and both-source tagging, nothing is
dropped by the merge. -/
theorem mergeDedup_length (all : List Contact)
    (hnd : (all.map keyName).Nodup)
    (hsrc : ∀ c ∈ all, c.source = some Source.team_page ∨
      c.source = some Source.google_search) :
    (mergeDedup all).length = all.length := by
  have h₁ : (dedupPass Source.team_page [] all).2 =
      all.filter (fun c => decide (c.source = some Source.team_page)) :=
    dedupPass_filter_eq _ all hnd [] (by simp)
  have h₂ : (dedupPass Source.google_search
      (dedupPass Source.team_page [] all).1 all).2 =
      all.filter (fun c => decide (c.source = some Source.google_search)) := by
    refine dedupPass_filter_eq _ all hnd _ ?_
    intro c hc hcsrc hcseen
    rw [dedupPass_seen_iff] at hcseen
    rcases hcseen with h | h
    · simp at h
    · obtain ⟨c', hc', hkey⟩ := List.mem_map.mp h
      have hc'src := dedupPass_source Source.team_page all [] c' hc'
      have hc'mem : c' ∈ all :=
        List.mem_of_mem_filter ((dedupPass_sublist _ all []).subset hc')
      have : c' = c :=
        List.inj_on_of_nodup_map hnd hc'mem hc hkey
      rw [this] at hc'src
      rw [hcsrc] at hc'src
      exact Source.noConfusion (Option.some.inj hc'src)
  simp only [mergeDedup, List.length_append, h₁, h₂]
  exact filter_two_sources_length all hsrc

/-! ## Claim C2 — email synthesizer -/

/-- Claim C2 counterexample: on inputs `"John"`, `"Smith"`,
`"https://www.Example.com/about"` the first candidate is
`john@Example.com` — the domain's case is preserved, so the claimed
first entry `john@example.com` and the claimed all-lower-case output
are both false. -/
theorem generateEmails_domain_case_counterexample :
    (generateEmails "John" "Smith" "https://www.Example.com/about").headD ""
        = "john@Example.com" ∧
      ("john@Example.com" : String) ≠ "john@example.com" ∧
      generateEmails "John" "Smith" "https://www.Example.com/about" ≠
        ["john@example.com", "smith@example.com", "john.smith@example.com",
         "johnsmith@example.com", "jsmith@example.com", "johns@example.com",
         "j.smith@example.com", "john_smith@example.com"] := by
  refine ⟨by decide, by decide, by decide⟩

/-- Claim C2 (amended): `generateEmails` returns the eight candidate
forms in the claimed order with duplicates collapsed keeping the first
occurrence (the output has no duplicates and is a subsequence of the
template), the domain normalized by stripping protocol, leading
`www.` and any path — but with the domain's original case preserved;
only the name parts are lower-cased.  On the round-trip inputs the
output is the claimed list with `Example.com` kept as is. -/
theorem generateEmails_spec (firstName lastName domain : String) :
    generateEmails firstName lastName domain =
        dedupStrings [] (emailTemplate firstName lastName domain) ∧
      (generateEmails firstName lastName domain).Nodup ∧
      List.Sublist (generateEmails firstName lastName domain)
        (emailTemplate firstName lastName domain) ∧
      generateEmails "John" "Smith" "https://www.Example.com/about" =
        ["john@Example.com", "smith@Example.com", "john.smith@Example.com",
         "johnsmith@Example.com", "jsmith@Example.com", "johns@Example.com",
         "j.smith@Example.com", "john_smith@Example.com"] := by
  refine ⟨rfl, (dedupStrings_nodup_fresh _ _).1, dedupStrings_sublist _ _,
    by decide⟩

/-! ## Claim C1 — merge tie-break -/

/-- Claim C1 counterexample: with "Jane Doe" coming from both passes
with differing titles, the merged result retains the page-sourced
(team-page) entry, not the search-sourced one — the code inserts
team-page contacts first and first-write-wins, so page beats search,
contrary to the claimed search-over-page priority. -/
theorem merge_retains_page_entry_counterexample :
    findAllContacts (some "https://x.com")
        (Except.ok [jdPage]) (Except.ok [jdSearch]) = [jdPage] ∧
      jdPage.source = some Source.team_page ∧
      jdSearch.source = some Source.google_search ∧
      jdPage.title ≠ jdSearch.title ∧
      findAllContacts (some "https://x.com")
        (Except.ok [jdPage]) (Except.ok [jdSearch]) ≠ [jdSearch] := by
  refine ⟨by decide, rfl, rfl, by decide, by decide⟩

/-- Claim C1 (amended): on a case-insensitive name collision between
the two passes the merged result retains the page-sourced (team-page)
entry only: entries are inserted in source-priority order with page
before search, first-write-wins per name key, and the search pass
never overwrites an existing team-page entry — whenever some team-page
candidate carries a given name key, every merged contact with that
key is team-page-sourced. -/
theorem findAllContacts_page_priority (w : String) (ps ss : List Contact)
    (p : Contact) (hp : p ∈ ps ++ ss)
    (hpsrc : p.source = some Source.team_page) :
    ∀ c, c ∈ findAllContacts (some w) (Except.ok ps) (Except.ok ss) →
      keyName c = keyName p → c.source = some Source.team_page := by
  intro c hc hkey
  have hc' : c ∈ mergeDedup (ps ++ ss) :=
    (List.take_subset 15 _) hc
  simp only [mergeDedup, List.mem_append] at hc'
  rcases hc' with h₁ | h₂
  · exact dedupPass_source Source.team_page (ps ++ ss) _ c h₁
  · exfalso
    have hfresh := (dedupPass_fresh_nodup Source.google_search (ps ++ ss)
      (dedupPass Source.team_page [] (ps ++ ss)).1).1 c h₂
    apply hfresh
    rw [hkey]
    exact dedupPass_coverage Source.team_page (ps ++ ss) [] p hp hpsrc

/-- Claim C1 witness: the amended priority rule applied to the
"Jane Doe" collision. -/
theorem findAllContacts_page_priority_witness :
    jdPage.source = some Source.team_page :=
  findAllContacts_page_priority "https://x.com" [jdPage] [jdSearch]
    jdPage (by decide) (by decide) jdPage (by decide) (by decide)

/-! ## Claim C4 — dedup, order, cap -/

/-- Claim C4: the orchestrator's returned list never contains two
entries with case-insensitively equal names, is a subsequence of the
priority-ordered (team page first, then google) input candidates —
preserving first-seen insertion order among survivors — and has length
at most 15; when the two passes supply 20 candidates with pairwise
case-insensitively distinct names, each tagged with its source, the
result has exactly 15 entries. -/
theorem findAllContacts_dedup_cap (w : String) (ps ss : List Contact) :
    ((findAllContacts (some w) (Except.ok ps) (Except.ok ss)).map
        keyName).Nodup ∧
      List.Sublist (findAllContacts (some w) (Except.ok ps) (Except.ok ss))
        (((ps ++ ss).filter
            (fun c => decide (c.source = some Source.team_page))) ++
          ((ps ++ ss).filter
            (fun c => decide (c.source = some Source.google_search)))) ∧
      (findAllContacts (some w) (Except.ok ps) (Except.ok ss)).length ≤ 15 ∧
      (((ps ++ ss).map keyName).Nodup →
        (∀ c ∈ ps ++ ss, c.source = some Source.team_page ∨
          c.source = some Source.google_search) →
        (ps ++ ss).length = 20 →
        (findAllContacts (some w) (Except.ok ps) (Except.ok ss)).length
          = 15) := by
  have hres : findAllContacts (some w) (Except.ok ps) (Except.ok ss) =
      (mergeDedup (ps ++ ss)).take 15 := rfl
  refine ⟨?_, ?_, ?_, ?_⟩
  · rw [hres]
    exact (mergeDedup_nodup (ps ++ ss)).sublist
      ((List.take_sublist _ _).map keyName)
  · rw [hres]
    exact (List.take_sublist _ _).trans (mergeDedup_sublist (ps ++ ss))
  · rw [hres]
    exact List.length_take_le _ _
  · intro hnd hsrc hlen
    rw [hres, List.length_take, mergeDedup_length (ps ++ ss) hnd hsrc, hlen]
    decide

/-- Claim C4 witness: 20 distinct tagged candidates yield exactly 15
merged contacts. -/
theorem findAllContacts_dedup_cap_witness :
    (findAllContacts (some "https://x.com")
      (Except.ok c4Team) (Except.ok c4Google)).length = 15 :=
  (findAllContacts_dedup_cap "https://x.com" c4Team c4Google).2.2.2
    (by decide) (by decide) (by decide)

/-! ## Claim C3 — name validator -/

/-- Claim C3: `isValidName` accepts exactly the strings satisfying the
four spec conditions (2–4 whitespace tokens, first token in the
name-plausibility set, every token starting with an upper-case letter,
surname of length at least 2); in particular any token count outside
2–4 is rejected regardless of the rest. -/
theorem isValidName_iff_spec (ns : String → Bool) (text : String) :
    (isValidName ns text = true ↔ nameSpecConds ns text) ∧
      ((words text.data).length < 2 ∨ 4 < (words text.data).length →
        isValidName ns text = false) := by
  constructor
  · constructor
    · intro h
      simp only [isValidName] at h
      split at h
      · exact absurd h (by simp)
      split at h
      · exact absurd h (by simp)
      split at h
      · exact absurd h (by simp)
      split at h
      · exact absurd h (by simp)
      rename_i h1 h2 h3 h4
      refine ⟨by omega, ?_, ?_, by omega⟩
      · exact eq_true_of_ne_false h2
      · exact List.all_eq_true.mp (eq_true_of_ne_false h3)
    · intro hc
      obtain ⟨⟨hlo, hhi⟩, hns, hup, hl⟩ := hc
      have c1 : ¬((words text.data).length < 2 ∨
          (words text.data).length > 4) := by omega
      have c2 : ¬(ns (String.mk ((words text.data).headD [])) = false) := by
        rw [hns]; simp
      have c3 : ¬((words text.data).all startsUpper = false) := by
        simp [List.all_eq_true.mpr hup]
      have c4 : ¬(((words text.data).getLastD []).length < 2) := by omega
      simp only [isValidName, if_neg c1, if_neg c2, if_neg c3, if_neg c4]
  · intro h
    simp only [isValidName]
    rw [if_pos (by omega)]

/-- Claim C3 witness: a five-token string is rejected whatever the
name set says. -/
theorem isValidName_iff_spec_witness :
    isValidName (fun _ => true) "One Two Three Four Five" = false :=
  (isValidName_iff_spec (fun _ => true) "One Two Three Four Five").2
    (by decide)

/-! ## Claim C8 — regex name-portion bounds -/

/-- Claim C8 counterexample: the name-capturing portion of the
search-snippet patterns (`[A-Z][a-z]+(?: [A-Z][a-z]+)+` under the `gi`
flags) matches a five-token sequence, so its repetition over name-like
tokens is not bounded by 4. -/
theorem searchNamePattern_unbounded_counterexample :
    matchesSearchName "Aa Bb Cc Dd Ee" = true ∧
      (nameToks "Aa Bb Cc Dd Ee").length = 5 ∧
      ¬ (nameToks "Aa Bb Cc Dd Ee").length ≤ 4 := by
  refine ⟨by decide, by decide, by decide⟩

/-- Claim C8 (amended): in the markdown extractor every name-capturing
portion is bounded to 2–4 name-like tokens (`{1,3}` repetition); the
search-snippet extractor's name portions instead use an unbounded `+`
over the token class, guaranteeing only a lower bound of 2 tokens and
accepting, for example, a five-token sequence. -/
theorem namePattern_bounds :
    (∀ s, matchesMarkdownName s = true →
        2 ≤ (nameToks s).length ∧ (nameToks s).length ≤ 4) ∧
      (∀ s, matchesMarkdownNameCI s = true →
        2 ≤ (nameToks s).length ∧ (nameToks s).length ≤ 4) ∧
      (∀ s, matchesSearchName s = true → 2 ≤ (nameToks s).length) ∧
      (matchesSearchName "Aa Bb Cc Dd Ee" = true ∧
        4 < (nameToks "Aa Bb Cc Dd Ee").length) := by
  refine ⟨fun s h => ?_, fun s h => ?_, fun s h => ?_, by decide, by decide⟩
  · simp only [matchesMarkdownName, Bool.and_eq_true, decide_eq_true_eq] at h
    exact ⟨h.1.1, h.1.2⟩
  · simp only [matchesMarkdownNameCI, Bool.and_eq_true, decide_eq_true_eq] at h
    exact ⟨h.1.1, h.1.2⟩
  · simp only [matchesSearchName, Bool.and_eq_true, decide_eq_true_eq] at h
    exact h.1

/-- Claim C8 witness: the markdown bound applies to a two-token
name. -/
theorem namePattern_bounds_witness :
    2 ≤ (nameToks "Aa Bb").length ∧ (nameToks "Aa Bb").length ≤ 4 :=
  namePattern_bounds.1 "Aa Bb" (by decide)

/-! ## Claim C5 — balance probe and exhaustion flag -/

/-- Claim C5: a balance probe reporting zero credits makes the
orchestrator skip the page pass entirely (no path is fetched, the page
source contributes no candidate), set `pageSourceExhausted`, and still
process the search pass normally; a failed probe (non-2xx or network
error) leaves the run identical to one with an unknown balance and
never sets the flag. -/
theorem discoverContacts_exhaustion (searchContacts : List Contact)
    (w : String) (extract : String → List ScrapedContact)
    (fetch : String → FetchOutcome) :
    (discoverContacts searchContacts (some w) extract
        (BalanceResult.ok (some 0)) fetch =
      ({ contacts := (deduplicateContacts searchContacts).take 15
         pageSourceExhausted := true }, [])) ∧
      (∀ status,
        discoverContacts searchContacts (some w) extract
            (BalanceResult.httpNotOk status) fetch =
          discoverContacts searchContacts (some w) extract
            (BalanceResult.ok none) fetch ∧
        (discoverContacts searchContacts (some w) extract
            (BalanceResult.httpNotOk status) fetch).1.pageSourceExhausted
          = false) ∧
      (discoverContacts searchContacts (some w) extract
          BalanceResult.probeFail fetch =
        discoverContacts searchContacts (some w) extract
          (BalanceResult.ok none) fetch ∧
      (discoverContacts searchContacts (some w) extract
          BalanceResult.probeFail fetch).1.pageSourceExhausted = false) := by
  refine ⟨?_, fun status => ⟨rfl, rfl⟩, rfl, rfl⟩
  simp [discoverContacts, scrapeTeamPagesWithFirecrawl]

/-! ## Claim C6 — early stop in the page pass -/

theorem fcLoop_att_take (e : String → List ScrapedContact)
    (f : String → FetchOutcome) :
    ∀ paths : List String, ∃ k, (fcLoop e f paths).2 = paths.take k := by
  intro paths
  induction paths with
  | nil => exact ⟨0, rfl⟩
  | cons p rest ih =>
    obtain ⟨k, hk⟩ := ih
    cases hf : f p with
    | content md =>
      by_cases he : (e md).isEmpty
      · exact ⟨k + 1, by simp [fcLoop, hf, he, hk]⟩
      · exact ⟨1, by simp [fcLoop, hf, he]⟩
    | noContent => exact ⟨k + 1, by simp [fcLoop, hf, hk]⟩
    | rateLimited => exact ⟨1, by simp [fcLoop, hf]⟩
    | timedOut => exact ⟨k + 1, by simp [fcLoop, hf, hk]⟩
    | failedOther => exact ⟨k + 1, by simp [fcLoop, hf, hk]⟩

/-- Claim C6 counterexample: in the legacy page pass, a first path
yielding one valid contact does not stop the loop — all eight paths
are still attempted (the loop only breaks once five contacts have
accumulated), contradicting the claim for this page-pass variant. -/
theorem legacy_no_early_stop_counterexample :
    fC6 (normalizeBase "https://x.com" ++ "/team") = some "PAGE1" ∧
      (exC6 "PAGE1").length = 1 ∧
      (scrapeTeamPage exC6 fC6 "https://x.com").2 =
        ["/team", "/about", "/about-us", "/our-team", "/leadership",
         "/founders", "/people", "/contact"] ∧
      (scrapeTeamPage exC6 fC6 "https://x.com").2 ≠ ["/team"] := by
  refine ⟨by decide, by decide, by decide, by decide⟩

/-- Claim C6 (amended): the Firecrawl page pass attempts its candidate
paths in their fixed order (the attempted list is always a prefix of
`TEAM_PATHS`) and stops the first time a path yields at least one
extracted contact — if the first path's content extracts one or more
contacts, no further path is fetched.  The legacy `scrapeTeamPage`
pass instead stops early only once at least 5 contacts have
accumulated (a path yielding 5 or more stops it at once; fewer does
not, as the counterexample shows). -/
theorem page_pass_early_stop :
    (∀ (e : String → List ScrapedContact) (b : BalanceResult) (w : String)
      (f : String → FetchOutcome) (md : String),
      b ≠ BalanceResult.ok (some 0) →
      f (fcBase w ++ "/about") = FetchOutcome.content md →
      e md ≠ [] →
      (scrapeTeamPagesWithFirecrawl e b w f).2 = ["/about"]) ∧
    (∀ (e : String → List ScrapedContact) (b : BalanceResult) (w : String)
      (f : String → FetchOutcome),
      ∃ k, (scrapeTeamPagesWithFirecrawl e b w f).2 = TEAM_PATHS.take k) ∧
    (∀ (e : String → List Contact) (f : String → Option String) (w : String)
      (html : String),
      f (normalizeBase w ++ "/team") = some html →
      5 ≤ (e html).length →
      (scrapeTeamPage e f w).2 = ["/team"]) := by
  refine ⟨?_, ?_, ?_⟩
  · intro e b w f md hb hf he
    have he' : (e md).isEmpty = false := by
      cases h' : e md with
      | nil => exact absurd h' he
      | cons a as => rfl
    cases b with
    | probeFail => simp [scrapeTeamPagesWithFirecrawl, TEAM_PATHS, fcLoop, hf, he']
    | httpNotOk s => simp [scrapeTeamPagesWithFirecrawl, TEAM_PATHS, fcLoop, hf, he']
    | ok c =>
      cases c with
      | none => simp [scrapeTeamPagesWithFirecrawl, TEAM_PATHS, fcLoop, hf, he']
      | some n =>
        cases n with
        | zero => exact absurd rfl hb
        | succ m =>
          simp [scrapeTeamPagesWithFirecrawl, TEAM_PATHS, fcLoop, hf, he']
  · intro e b w f
    cases b with
    | probeFail => exact fcLoop_att_take e _ TEAM_PATHS
    | httpNotOk s => exact fcLoop_att_take e _ TEAM_PATHS
    | ok c =>
      cases c with
      | none => exact fcLoop_att_take e _ TEAM_PATHS
      | some n =>
        cases n with
        | zero => exact ⟨0, rfl⟩
        | succ m => exact fcLoop_att_take e _ TEAM_PATHS
  · intro e f w html hf h5
    have he' : (e html).isEmpty = false := by
      cases h' : e html with
      | nil => rw [h'] at h5; simp at h5
      | cons a as => rfl
    simp [scrapeTeamPage, teamPaths, stpLoop, hf, he', h5]

/-- Claim C6 witness: the Firecrawl early-stop rule applied to a
productive first path. -/
theorem page_pass_early_stop_witness :
    (scrapeTeamPagesWithFirecrawl (fun _ => [{ fullName := "Al Bo", title := "CEO" }])
      BalanceResult.probeFail "https://x.com"
      (fun _ => FetchOutcome.content "md")).2 = ["/about"] :=
  page_pass_early_stop.1 (fun _ => [{ fullName := "Al Bo", title := "CEO" }])
    BalanceResult.probeFail "https://x.com" (fun _ => FetchOutcome.content "md")
    "md" (by decide) rfl (by decide)

/-! ## Claim C7 — failure semantics -/

/-- Claim C7: a failing search query contributes exactly what an empty
query result contributes; a failing page or search pass leaves the
legacy orchestrator returning the same (defined) result as an empty
pass; inside the Firecrawl path loop a rate-limit error abandons all
remaining paths at once while a timeout (like a no-content or other
error) only skips to the next path; and in the legacy path loop a
failed fetch skips to the next path. -/
theorem failure_semantics :
    (∀ (e : String) (rest : List (Except String (List Contact))),
      searchForDecisionMakers (Except.error e :: rest) =
        searchForDecisionMakers (Except.ok [] :: rest)) ∧
    (∀ (w : Option String) (sr : Except String (List Contact)) (e : String),
      findAllContacts w (Except.error e) sr =
        findAllContacts w (Except.ok []) sr) ∧
    (∀ (w : Option String) (pr : Except String (List Contact)) (e : String),
      findAllContacts w pr (Except.error e) =
        findAllContacts w pr (Except.ok [])) ∧
    (∀ (ex : String → List ScrapedContact) (f : String → FetchOutcome)
      (p : String) (rest : List String), f p = FetchOutcome.rateLimited →
      fcLoop ex f (p :: rest) = ([], [p])) ∧
    (∀ (ex : String → List ScrapedContact) (f : String → FetchOutcome)
      (p : String) (rest : List String), f p = FetchOutcome.timedOut →
      fcLoop ex f (p :: rest) =
        ((fcLoop ex f rest).1, p :: (fcLoop ex f rest).2)) ∧
    (∀ (ex : String → List Contact) (f : String → Option String)
      (base : String) (acc : List Contact) (p : String)
      (rest : List String), f (base ++ p) = none →
      stpLoop ex f base acc (p :: rest) =
        ((stpLoop ex f base acc rest).1,
          p :: (stpLoop ex f base acc rest).2)) := by
  refine ⟨fun e rest => rfl, fun w sr e => ?_, fun w pr e => ?_,
    fun ex f p rest hf => by simp [fcLoop, hf],
    fun ex f p rest hf => by simp [fcLoop, hf],
    fun ex f base acc p rest hf => by simp [stpLoop, hf]⟩
  · cases w <;> rfl
  · cases w <;> cases pr <;> rfl

/-- Claim C7 witness: the rate-limit rule applied to a first-path
rate-limit error. -/
theorem failure_semantics_witness :
    fcLoop (fun _ => ([] : List ScrapedContact))
        (fun _ => FetchOutcome.rateLimited) ("/about" :: ["/team"]) =
      ([], ["/about"]) :=
  failure_semantics.2.2.2.1 (fun _ => [])
    (fun _ => FetchOutcome.rateLimited) "/about" ["/team"] rfl

/-! ## Claim C9 — extraction constructor invariant -/

theorem parseFullName_spec (ns : String → Bool) (s : String) (p : ParsedName)
    (h : parseFullName ns s = some p) :
    words p.fullName.data =
        (words s.data).filter
          (fun part => decide (lowerList part ∉ stopWords)) ∧
      2 ≤ ((words p.fullName.data).filter
        (fun w => decide (lowerList w ∉ stopWords))).length ∧
      p.firstName = String.mk ((words p.fullName.data).headD []) ∧
      ns p.firstName = true ∧
      p.lastName = String.mk ((words p.fullName.data).getLastD []) := by
  simp only [parseFullName] at h
  split at h
  · exact absurd h (by simp)
  split at h
  · exact absurd h (by simp)
  split at h
  · exact absurd h (by simp)
  rename_i hparts hflen hvalid
  have hp := Option.some.inj h
  subst hp
  set fp := (words s.data).filter
    (fun part => decide (lowerList part ∉ stopWords)) with hfp
  have hgood : ∀ w ∈ fp, w ≠ [] ∧ ∀ c ∈ w, c.isWhitespace = false := by
    intro w hw
    exact words_sound s.data w (List.mem_of_mem_filter hw)
  have hround : words (joinWords fp) = fp := words_joinWords fp hgood
  have hdata : (String.mk (joinWords fp)).data = joinWords fp := rfl
  have hwords : words (String.mk (joinWords fp)).data = fp := by
    rw [hdata, hround]
  have hfilter : fp.filter (fun w => decide (lowerList w ∉ stopWords)) = fp := by
    apply List.filter_eq_self.mpr
    intro w hw
    exact (List.mem_filter.mp hw).2
  have hvalid' : isValidName ns (String.mk (joinWords fp)) = true := by
    cases hv : isValidName ns (String.mk (joinWords fp)) with
    | false => exact absurd hv hvalid
    | true => rfl
  have hconds := ((isValidName_iff_spec ns (String.mk (joinWords fp))).1).mp hvalid'
  simp only [nameSpecConds, hwords] at hconds
  refine ⟨?_, ?_, ?_, ?_, ?_⟩ <;> dsimp only
  · exact hround
  · rw [hround, hfilter]
    omega
  · rw [hround]
  · exact hconds.2.1
  · rw [hround]

theorem mkGoogleContact_invariant (ns : String → Bool) (s : String)
    (p : ParsedName) (t : String) (h : parseFullName ns s = some p) :
    2 ≤ ((words (mkGoogleContact p t).fullName.data).filter
        (fun w => decide (lowerList w ∉ stopWords))).length ∧
      (mkGoogleContact p t).firstName =
        String.mk ((words (mkGoogleContact p t).fullName.data).headD []) ∧
      ns (mkGoogleContact p t).firstName = true ∧
      (mkGoogleContact p t).lastName =
        String.mk ((words (mkGoogleContact p t).fullName.data).getLastD []) := by
  obtain ⟨_, h2, h3, h4, h5⟩ := parseFullName_spec ns s p h
  exact ⟨h2, h3, h4, h5⟩

/-- Claim C9: every candidate contact produced by the search-snippet
extractor satisfies the constructor invariant — its full name still
has at least 2 tokens after stop-word filtering, its first name is the
first token of the reconstructed name and belongs to the
name-plausibility set, and its last name is the last token. -/
theorem extraction_invariant (ns : String → Bool)
    (m1 : List (String × String)) (m2 : List String)
    (m3 m4 : List (String × String)) :
    ∀ c ∈ extractContactsFromText ns m1 m2 m3 m4,
      2 ≤ ((words c.fullName.data).filter
          (fun w => decide (lowerList w ∉ stopWords))).length ∧
        c.firstName = String.mk ((words c.fullName.data).headD []) ∧
        ns c.firstName = true ∧
        c.lastName = String.mk ((words c.fullName.data).getLastD []) := by
  intro c hc
  simp only [extractContactsFromText, List.mem_append] at hc
  rcases hc with ((hc | hc) | hc) | hc
  · obtain ⟨m, hm, hmap⟩ := List.mem_filterMap.mp hc
    obtain ⟨p, hp, hmk⟩ := Option.map_eq_some'.mp hmap
    subst hmk
    exact mkGoogleContact_invariant ns _ p _ hp
  · obtain ⟨namesText, hnt, hmem⟩ := List.mem_flatMap.mp hc
    obtain ⟨name, hname, hmap⟩ := List.mem_filterMap.mp hmem
    obtain ⟨p, hp, hmk⟩ := Option.map_eq_some'.mp hmap
    subst hmk
    exact mkGoogleContact_invariant ns _ p _ hp
  · obtain ⟨m, hm, hmap⟩ := List.mem_filterMap.mp hc
    obtain ⟨p, hp, hmk⟩ := Option.map_eq_some'.mp hmap
    subst hmk
    exact mkGoogleContact_invariant ns _ p _ hp
  · obtain ⟨m, hm, hmap⟩ := List.mem_filterMap.mp hc
    split at hmap
    · obtain ⟨p, hp, hmk⟩ := Option.map_eq_some'.mp hmap
      subst hmk
      exact mkGoogleContact_invariant ns _ p _ hp
    · exact absurd hmap (by simp)


/-- Claim C9 witness: the invariant holds for a concrete extracted
contact. -/
theorem extraction_invariant_witness :
    2 ≤ ((words c9Contact.fullName.data).filter
        (fun w => decide (lowerList w ∉ stopWords))).length ∧
      c9Contact.firstName =
        String.mk ((words c9Contact.fullName.data).headD []) ∧
      nsC9 c9Contact.firstName = true ∧
      c9Contact.lastName =
        String.mk ((words c9Contact.fullName.data).getLastD []) :=
  extraction_invariant nsC9 [("John Smith", "CEO")] [] [] []
    c9Contact (by decide)

/-! ## Claim C10 — per-source caps before the merge -/

/-- Claim C10: the search pass returns at most 5 contacts, both page
passes return at most 10, and the combined candidate list entering the
legacy merge never exceeds 15 entries before the final cap. -/
theorem per_source_caps (perQuery : List (Except String (List Contact)))
    (extract : String → List Contact) (fetch : String → Option String)
    (w : String) (extractFc : String → List ScrapedContact)
    (balance : BalanceResult) (fetchFc : String → FetchOutcome) :
    (searchForDecisionMakers perQuery).length ≤ 5 ∧
      (scrapeTeamPage extract fetch w).1.length ≤ 10 ∧
      (scrapeTeamPagesWithFirecrawl extractFc balance w
        fetchFc).1.contacts.length ≤ 10 ∧
      (scrapeTeamPage extract fetch w).1.length +
        (searchForDecisionMakers perQuery).length ≤ 15 := by
  have h₁ : (searchForDecisionMakers perQuery).length ≤ 5 :=
    List.length_take_le _ _
  have h₂ : (scrapeTeamPage extract fetch w).1.length ≤ 10 :=
    List.length_take_le _ _
  refine ⟨h₁, h₂, ?_, by omega⟩
  cases balance with
  | probeFail => exact List.length_take_le _ _
  | httpNotOk s => exact List.length_take_le _ _
  | ok c =>
    cases c with
    | none => exact List.length_take_le _ _
    | some n =>
      cases n with
      | zero => simp [scrapeTeamPagesWithFirecrawl]
      | succ m => exact List.length_take_le _ _

end GmapsLeads
